import Mathlib

/-!
Verification of the SkillPulse text-extraction and aggregation engine
(`app/analytics.py`, `app/extractor.py`, `app/collector.py`) against its
specification.

Modelling conventions of this shallow embedding:
* Python strings are `List Char` (the data handled by the program is ASCII;
  `str.upper`, `str.lower`, `\w`, `\d`, `\s` are modelled on ASCII).
* Python floats are `ℚ` (every value produced by the salary parser is a
  quotient of integers, so `ℚ` represents them exactly).
* SQL `DATETIME` instants are `ℤ` (seconds); `timedelta(days = n)` is
  `n * 86400`.
* The SQLite storage behind SQLAlchemy is a `Store` of skills, job posts and
  the `job_skill` association table, each list in insertion (rowid) order.
  SQL queries without a total `ORDER BY` return rows in that order, and the
  sort produced by `ORDER BY x DESC` is modelled as a stable descending sort,
  which is what SQLite produces for these grouped queries.
* Recursions that walk a string in non-structural steps take explicit fuel;
  the fuel given is always at least the length of the string, which the
  scanner can never exhaust because every step consumes at least one
  character.
-/

namespace SkillPulse

/-- Python `str.upper`, characterwise on ASCII. -/
def upperStr (s : List Char) : List Char := s.map Char.toUpper

/-- Python `str.lower`, characterwise on ASCII. -/
def lowerStr (s : List Char) : List Char := s.map Char.toLower

/-- The ASCII whitespace recognised by Python `str.strip` and by regex `\s`:
space, tab, newline, carriage return, vertical tab, form feed. -/
def isPySpace (c : Char) : Bool :=
  c = ' ' || c = '\t' || c = '\n' || c = '\r' || c = Char.ofNat 11 || c = Char.ofNat 12

/-- Python `str.replace pat repl`, one scan step per unit of fuel: replace
all non-overlapping occurrences, left to right.  Each step consumes at least
one character, so fuel `s.length` suffices. -/
def replaceAllGo (pat repl : List Char) : Nat → List Char → List Char
  | 0, s => s
  | _ + 1, [] => []
  | fuel + 1, c :: rest =>
    if pat ≠ [] ∧ pat.isPrefixOf (c :: rest) then
      repl ++ replaceAllGo pat repl fuel (rest.drop (pat.length - 1))
    else
      c :: replaceAllGo pat repl fuel rest

/-- Python `str.replace pat repl`. -/
def replaceAll (pat repl s : List Char) : List Char :=
  replaceAllGo pat repl s.length s

/-- Python `str.strip`: drop leading and trailing whitespace. -/
def stripChars (s : List Char) : List Char :=
  ((s.dropWhile isPySpace).reverse.dropWhile isPySpace).reverse

/-- `parse_salary`'s preprocessing (`analytics.py` lines 35-37): uppercase,
strip currency words and symbols, strip outer whitespace.  The `'Birr'`
replacement is applied to the already-uppercased text, exactly as in the
source (where it can never fire). -/
def preprocessSalary (s : List Char) : List Char :=
  let t0 := upperStr s
  let t1 := replaceAll "Birr".toList [] t0
  let t2 := replaceAll "USD".toList [] t1
  let t3 := replaceAll "PER YEAR".toList [] t2
  let t4 := replaceAll "/YEAR".toList [] t3
  let t5 := replaceAll "ANNUALLY".toList [] t4
  let t6 := replaceAll "$".toList [] t5
  stripChars t6

/-- Greedy match of at most `n` leading digits (the tail of the `\d{1,3}`
part of the token pattern).  Returns (matched digits, rest). -/
def takeDigitsUpTo : Nat → List Char → List Char × List Char
  | 0, s => ([], s)
  | _ + 1, [] => ([], [])
  | n + 1, c :: rest =>
    if c.isDigit then
      let p := takeDigitsUpTo n rest
      (c :: p.1, p.2)
    else ([], c :: rest)

/-- Greedy match of `(?:,\d{3})*`: zero or more groups of a comma followed by
exactly three digits.  Returns (matched, rest). -/
def commaGroups : List Char → List Char × List Char
  | ',' :: a :: b :: c :: rest =>
    if a.isDigit && b.isDigit && c.isDigit then
      let p := commaGroups rest
      (',' :: a :: b :: c :: p.1, p.2)
    else ([], ',' :: a :: b :: c :: rest)
  | s => ([], s)

/-- Regex `\s*`: skip ASCII whitespace. -/
def skipSpaces (s : List Char) : List Char := s.dropWhile isPySpace

/-- One pass of `re.findall(r'(\d{1,3}(?:,\d{3})*)\s*(k?)', text)`
(`analytics.py` line 42): each found token is its digits-and-commas string
together with the flag of the optional (case-insensitive) `k` suffix.  The
scan restarts right after each match, which always consumes at least one
character, so fuel `s.length + 1` is never exhausted. -/
def salaryScanGo : Nat → List Char → List (List Char × Bool)
  | 0, _ => []
  | _ + 1, [] => []
  | fuel + 1, c :: rest =>
    if c.isDigit then
      let p1 := takeDigitsUpTo 2 rest
      let p2 := commaGroups p1.2
      let s3 := skipSpaces p2.2
      match s3 with
      | k :: s4 =>
        if k = 'k' ∨ k = 'K' then ((c :: p1.1) ++ p2.1, true) :: salaryScanGo fuel s4
        else ((c :: p1.1) ++ p2.1, false) :: salaryScanGo fuel (k :: s4)
      | [] => [((c :: p1.1) ++ p2.1, false)]
    else salaryScanGo fuel rest

/-- All tokens `re.findall` yields on `s` for the salary pattern. -/
def salaryScan (s : List Char) : List (List Char × Bool) :=
  salaryScanGo (s.length + 1) s

/-- Digit string to number (Python `float` of a string of digits). -/
def digitsToNat (s : List Char) : Nat :=
  s.foldl (fun acc c => acc * 10 + (c.toNat - '0'.toNat)) 0

/-- The numeric value of one found token (`analytics.py` lines 49-55):
commas removed, `k` suffix multiplies by 1000. -/
def tokenValue (t : List Char × Bool) : ℚ :=
  (digitsToNat (t.1.filter (fun c => c ≠ ',')) : ℚ) * (if t.2 then 1000 else 1)

/-- `parse_salary` (`analytics.py` lines 15-58): `None` for an empty string,
otherwise preprocess, scan for tokens, and return the arithmetic mean of all
token values (`None` when there is no token). -/
def parseSalary (s : List Char) : Option ℚ :=
  if s = [] then none
  else
    let text := preprocessSalary s
    let found := salaryScan text
    if found = [] then none
    else
      let values := found.map tokenValue
      if values = [] then none else some (values.sum / values.length)

/-- Modelled from the spec ("Scan for numeric tokens matching
`digits(,digits)*` optionally followed by a `k` (thousands) suffix"): the
comma groups of a token as the spec words them, a comma followed by one or
more digits. -/
def specCommaGroupsGo : Nat → List Char → List Char × List Char
  | 0, s => ([], s)
  | fuel + 1, s =>
    match s with
    | ',' :: c :: rest =>
      if c.isDigit then
        let ds := (c :: rest).takeWhile Char.isDigit
        let r := (c :: rest).dropWhile Char.isDigit
        let p := specCommaGroupsGo fuel r
        (',' :: (ds ++ p.1), p.2)
      else ([], ',' :: c :: rest)
    | s => ([], s)

/-- Modelled from the spec: the `(,digits)*` comma groups, fuelled. -/
def specCommaGroups (s : List Char) : List Char × List Char :=
  specCommaGroupsGo s.length s

/-- Modelled from the spec: the token scan with the leading digit group
unbounded (`digits` rather than the source's `\d{1,3}`). -/
def specSalaryScanGo : Nat → List Char → List (List Char × Bool)
  | 0, _ => []
  | _ + 1, [] => []
  | fuel + 1, c :: rest =>
    if c.isDigit then
      let d1 := (c :: rest).takeWhile Char.isDigit
      let s1 := (c :: rest).dropWhile Char.isDigit
      let p := specCommaGroups s1
      let s3 := skipSpaces p.2
      match s3 with
      | k :: s4 =>
        if k = 'k' ∨ k = 'K' then (d1 ++ p.1, true) :: specSalaryScanGo fuel s4
        else (d1 ++ p.1, false) :: specSalaryScanGo fuel (k :: s4)
      | [] => [(d1 ++ p.1, false)]
    else specSalaryScanGo fuel rest

/-- Modelled from the spec: `parse_salary` as the spec words it, with
unbounded leading digit groups in the tokens. -/
def specParseSalary (s : List Char) : Option ℚ :=
  if s = [] then none
  else
    let text := preprocessSalary s
    let found := specSalaryScanGo (text.length + 1) text
    if found = [] then none
    else
      let values := found.map tokenValue
      if values = [] then none else some (values.sum / values.length)

/-- Well-formed comma groups `(,\d{3})*`: zero or more groups of a comma
followed by exactly three digits. -/
def groupsOK : List Char → Bool
  | [] => true
  | ',' :: a :: b :: c :: rest => a.isDigit && b.isDigit && c.isDigit && groupsOK rest
  | _ => false

/-- The shape every token found by the source's scan has: one to three
leading digits, then comma groups of exactly three digits each. -/
def tokenShapeOK (t : List Char) : Prop :=
  1 ≤ (t.takeWhile Char.isDigit).length ∧ (t.takeWhile Char.isDigit).length ≤ 3 ∧
    groupsOK (t.dropWhile Char.isDigit) = true

/-- Regex `\w` on ASCII: letters, digits, underscore. -/
def isWordChar (c : Char) : Bool := c.isAlphanum || c = '_'

/-- Whether position `i` of `text` holds a word character (`false` out of
range). -/
def wordAt (text : List Char) (i : Nat) : Bool :=
  match text[i]? with
  | some c => isWordChar c
  | none => false

/-- Whether the position just before `i` holds a word character (`false` at
the start of the text). -/
def prevWordAt (text : List Char) : Nat → Bool
  | 0 => false
  | i + 1 => wordAt text i

/-- Regex `\b` at position `i` of `text`: a transition between word and
non-word (positions before the start and past the end count as non-word). -/
def boundaryAt (text : List Char) (i : Nat) : Bool :=
  prevWordAt text i != wordAt text i

/-- `re.search(r'\b' + re.escape(lit) + r'\b', text)` as a Bool: some
position carries a word boundary, then the literal, then a word boundary. -/
def searchWordPattern (lit text : List Char) : Bool :=
  (List.range (text.length + 1)).any (fun i =>
    boundaryAt text i && lit.isPrefixOf (text.drop i) && boundaryAt text (i + lit.length))

/-- The fixed skill vocabulary `TECH_SKILLS` (`extractor.py` lines 11-41),
in source order, duplicates included. -/
def techSkills : List (List Char) := [
  "Python".toList, "JavaScript".toList, "Java".toList, "TypeScript".toList,
  "C++".toList, "C#".toList, "Go".toList, "Rust".toList,
  "PHP".toList, "Ruby".toList, "Swift".toList, "Kotlin".toList,
  "Scala".toList, "R".toList, "Dart".toList, "Perl".toList,
  "React".toList, "Vue".toList, "Angular".toList, "Django".toList,
  "Flask".toList, "FastAPI".toList, "Express".toList,
  "Next.js".toList, "Nuxt".toList, "Svelte".toList, "Laravel".toList,
  "Spring".toList, "ASP.NET".toList,
  "PostgreSQL".toList, "MySQL".toList, "MongoDB".toList, "Redis".toList,
  "Elasticsearch".toList, "Cassandra".toList,
  "SQLite".toList, "DynamoDB".toList, "Oracle".toList, "SQL Server".toList,
  "AWS".toList, "Azure".toList, "GCP".toList, "Docker".toList,
  "Kubernetes".toList, "Terraform".toList, "Ansible".toList,
  "Jenkins".toList, "GitLab CI".toList, "GitHub Actions".toList,
  "Linux".toList, "Bash".toList,
  "HTML".toList, "CSS".toList, "SASS".toList, "LESS".toList,
  "Webpack".toList, "Vite".toList, "npm".toList, "yarn".toList,
  "Machine Learning".toList, "Deep Learning".toList, "TensorFlow".toList,
  "PyTorch".toList, "Pandas".toList,
  "NumPy".toList, "Scikit-learn".toList, "Jupyter".toList, "Data Science".toList,
  "React Native".toList, "Flutter".toList, "iOS".toList, "Android".toList,
  "Xamarin".toList,
  "Git".toList, "GitHub".toList, "GitLab".toList, "Jira".toList,
  "Agile".toList, "Scrum".toList, "REST API".toList,
  "GraphQL".toList, "Microservices".toList, "Node.js".toList,
  "npm".toList, "yarn".toList]

/-- `extract_skills` (`extractor.py` lines 86-109): every vocabulary entry
whose uppercased form occurs in the uppercased text under a `\b`-delimited
word search.  Python collects the matches in a set; the model keeps the
matching entries in vocabulary order, and the claims speak of membership. -/
def extractSkills (text : List Char) : List (List Char) :=
  techSkills.filter (fun sk => searchWordPattern (upperStr sk) (upperStr text))

/-- Modelled from the spec: the term "appears in the text as a whole-word,
case-insensitive match" — an occurrence of the term (uppercasing both sides)
with no word character immediately adjacent on either side. -/
def specWholeWordOccurs (term text : List Char) : Bool :=
  (List.range ((upperStr text).length + 1)).any (fun i =>
    (upperStr term).isPrefixOf ((upperStr text).drop i) &&
    !(prevWordAt (upperStr text) i) &&
    !(wordAt (upperStr text) (i + (upperStr term).length)))

/-- The example job text of the spec's Skill Matcher property. -/
def exampleJobText : List Char :=
  "Looking for a Python developer with React and Django experience".toList

/-- A small regex AST covering the constructs of `extract_salary`'s four
patterns. -/
inductive RE where
  | eps : RE
  | cls (p : Char → Bool) : RE
  | seq (a b : RE) : RE
  | alt (a b : RE) : RE
  | opt (a : RE) : RE
  | star (a : RE) : RE

/-- Node count of a pattern, used to bound the matcher's recursion depth. -/
def reSize : RE → Nat
  | .eps => 1
  | .cls _ => 1
  | .seq a b => reSize a + reSize b + 1
  | .alt a b => reSize a + reSize b + 1
  | .opt a => reSize a + 1
  | .star a => reSize a + 1

/-- Backtracking regex matcher in continuation-passing style with Python `re`
semantics: alternatives are tried left first, `?` prefers presence, `*` is
greedy, and a `*` iteration that consumes nothing is cut off (as Python cuts
zero-width repeats).  On success the run returns the remaining suffix.  Fuel
bounds the recursion depth; `reFuel` below always suffices because every
star iteration consumes at least one character and every other step walks
down the pattern. -/
def mrun : Nat → RE → List Char → (List Char → Option (List Char)) → Option (List Char)
  | 0, _, _, _ => none
  | _ + 1, .eps, s, k => k s
  | _ + 1, .cls p, s, k =>
    match s with
    | [] => none
    | c :: rest => if p c then k rest else none
  | fuel + 1, .seq a b, s, k => mrun fuel a s (fun s1 => mrun fuel b s1 k)
  | fuel + 1, .alt a b, s, k => (mrun fuel a s k).orElse (fun _ => mrun fuel b s k)
  | fuel + 1, .opt a, s, k => (mrun fuel a s k).orElse (fun _ => k s)
  | fuel + 1, .star a, s, k =>
    (mrun fuel a s (fun s1 =>
      if s1.length < s.length then mrun fuel (.star a) s1 k else none)).orElse
      (fun _ => k s)

/-- Depth bound for `mrun` on pattern `r` over suffix `s`. -/
def reFuel (r : RE) (s : List Char) : Nat := (reSize r + 1) * (s.length + 2)

/-- `re.search`: try a match at each position, left to right; on success
return the matched substring `match.group(0)` (a slice of the searched
text). -/
def reSearchG0 (r : RE) : List Char → Option (List Char)
  | [] =>
    match mrun (reFuel r []) r [] some with
    | some _ => some []
    | none => none
  | c :: rest =>
    match mrun (reFuel r (c :: rest)) r (c :: rest) some with
    | some rem => some ((c :: rest).take ((c :: rest).length - rem.length))
    | none => reSearchG0 r rest

/-- One literal character, case-insensitively (`re.IGNORECASE`). -/
def rcharCI (c : Char) : RE := .cls (fun x => x.toUpper = c.toUpper)

/-- One literal character, exactly. -/
def rchar (c : Char) : RE := .cls (fun x => x = c)

/-- Regex `\d`. -/
def rdigit : RE := .cls Char.isDigit

/-- Regex `\s`. -/
def rspace : RE := .cls isPySpace

/-- The dash class `[-–—]` (hyphen, en dash, em dash). -/
def rdash : RE := .cls (fun c => c = '-' || c = '–' || c = '—')

/-- A case-insensitive literal string. -/
def rlitCI (s : List Char) : RE := s.foldr (fun c acc => .seq (rcharCI c) acc) .eps

/-- Sequence of patterns. -/
def rseq (l : List RE) : RE := l.foldr .seq .eps

/-- Greedy `{1,3}` repetition. -/
def rrep13 (r : RE) : RE := .seq r (.opt (.seq r (.opt r)))

/-- Regex `\s+`. -/
def rspaces1 : RE := .seq rspace (.star rspace)

/-- Regex `\s*`. -/
def rspaces : RE := .star rspace

/-- `(\d{1,3}(?:,\d{3})*(?:k)?)`. -/
def rnum : RE :=
  .seq (rrep13 rdigit)
    (.seq (.star (rseq [rchar ',', rdigit, rdigit, rdigit])) (.opt (rcharCI 'k')))

/-- `(?:per\s+year|/year|annually|USD|EUR|RUB)`. -/
def rqual : RE :=
  .alt (rseq [rlitCI "per".toList, rspaces1, rlitCI "year".toList])
    (.alt (rlitCI "/year".toList)
      (.alt (rlitCI "annually".toList)
        (.alt (rlitCI "USD".toList) (.alt (rlitCI "EUR".toList) (rlitCI "RUB".toList)))))

/-- `(\d{1,3}k)`. -/
def rnumk : RE := .seq (rrep13 rdigit) (rcharCI 'k')

/-- Pattern 1 of `extract_salary`:
`\$?\s*(NUM)\s*[-–—]\s*\$?\s*(NUM)\s*(?:QUAL)?`. -/
def salaryPattern1 : RE :=
  rseq [.opt (rchar '$'), rspaces, rnum, rspaces, rdash, rspaces, .opt (rchar '$'),
    rspaces, rnum, rspaces, .opt rqual]

/-- Pattern 2: `\$?\s*(NUM)\s*QUAL`. -/
def salaryPattern2 : RE :=
  rseq [.opt (rchar '$'), rspaces, rnum, rspaces, rqual]

/-- Pattern 3: `(\d{1,3}k)\s*[-–—]\s*(\d{1,3}k)`. -/
def salaryPattern3 : RE :=
  rseq [rnumk, rspaces, rdash, rspaces, rnumk]

/-- Pattern 4: `\$?\s*(NUM)\s*(?:USD|EUR|RUB)`. -/
def salaryPattern4 : RE :=
  rseq [.opt (rchar '$'), rspaces, rnum, rspaces,
    .alt (rlitCI "USD".toList) (.alt (rlitCI "EUR".toList) (rlitCI "RUB".toList))]

/-- `extract_salary` (`extractor.py` lines 44-83): uppercase the text, try
the four patterns in order with `re.search`, and return the whitespace-
stripped `match.group(0)` of the first one that matches. -/
def extractSalary (text : List Char) : Option (List Char) :=
  let tu := upperStr text
  match reSearchG0 salaryPattern1 tu with
  | some m => some (stripChars m)
  | none =>
    match reSearchG0 salaryPattern2 tu with
    | some m => some (stripChars m)
    | none =>
      match reSearchG0 salaryPattern3 tu with
      | some m => some (stripChars m)
      | none =>
        match reSearchG0 salaryPattern4 tu with
        | some m => some (stripChars m)
        | none => none

/-! ### The stored data model (`app/models.py`) and the Aggregation Engine -/

/-- A stored `job_posts` row: the extracted salary text (nullable) and the
posting instant; `raw_text` and `job_title` play no part in the claims. -/
structure JobPost where
  id : Nat
  salary : Option (List Char)
  posted_date : Int
deriving DecidableEq

/-- A stored `skills` row. -/
structure Skill where
  id : Nat
  name : List Char
deriving DecidableEq

/-- The SQLite store: `skills`, `job_posts` and the `job_skill` association
table, each list in insertion (rowid) order.  An association pair is
(job post id, skill id). -/
structure Store where
  skills : List Skill
  jobs : List JobPost
  assoc : List (Nat × Nat)
deriving DecidableEq

/-- `timedelta(days = n)` in seconds. -/
def daysTD (n : Nat) : Int := n * 86400

/-- `datetime.now() - timedelta(days = days)`: the window cutoff. -/
def windowCutoff (now : Int) (days : Nat) : Int := now - daysTD days

/-- The SQL join through `job_skill`: whether job `j` carries skill `sid`. -/
def jobHasSkill (st : Store) (j : JobPost) (sid : Nat) : Bool :=
  st.assoc.contains (j.id, sid)

/-- Python truthiness applied to a parsed salary
(`parsed = parse_salary(...); if parsed:`): keeps a value only when it
parses and is non-zero (`None` and `0.0` are both falsy). -/
def truthyParse (s : List Char) : Option ℚ :=
  match parseSalary s with
  | some v => if v = 0 then none else some v
  | none => none

/-- The salary values a list of jobs contributes to an average: each job's
salary string parsed, kept when the parse is truthy. -/
def salariesOf (jobs : List JobPost) : List ℚ :=
  jobs.filterMap (fun j => j.salary.bind truthyParse)

/-- `sum(salaries) / len(salaries) if salaries else None`. -/
def avgOpt (l : List ℚ) : Option ℚ :=
  if l = [] then none else some (l.sum / l.length)

/-- Stable insert for a descending sort by `key`: the new element goes after
the elements whose key is at least its own. -/
def insertDescBy {α β : Type} [LinearOrder β] (key : α → β) (x : α) : List α → List α
  | [] => [x]
  | y :: ys => if key y < key x then x :: y :: ys else y :: insertDescBy key x ys

/-- Stable descending sort by `key`: SQLite's `ORDER BY key DESC` over rows
in store order, and Python's `list.sort(key=key, reverse=True)`. -/
def sortDescBy {α β : Type} [LinearOrder β] (key : α → β) (l : List α) : List α :=
  l.foldl (fun acc x => insertDescBy key x acc) []

/-- A row of `top_skills_week` / `top_skills_month`. -/
structure SkillStat where
  skill_name : List Char
  job_count : Nat
  avg_salary : Option ℚ
deriving DecidableEq

/-- The jobs of skill `sk` posted at or after `cutoff`: the rows counted by
the first, grouped query of `top_skills_*`
(`JobPost.posted_date >= cutoff_date`). -/
def jobsInWindowWithSkill (st : Store) (cutoff : Int) (sk : Skill) : List JobPost :=
  st.jobs.filter (fun j => jobHasSkill st j sk.id && cutoff ≤ j.posted_date)

/-- The grouped `(skill, job_count)` rows of the first query of
`top_skills_*`: an inner join, so skills with no job in the window produce
no group; groups appear in skill (group key) order. -/
def skillCounts (st : Store) (cutoff : Int) : List (Skill × Nat) :=
  st.skills.filterMap (fun sk =>
    let n := (jobsInWindowWithSkill st cutoff sk).length
    if n = 0 then none else some (sk, n))

/-- The second query of `top_skills_*`: jobs joined to a skill **named**
`name`, inside the window, with salary present (`salary.isnot(None)`). -/
def jobsWithSkillName (st : Store) (cutoff : Int) (name : List Char) : List JobPost :=
  st.jobs.filter (fun j =>
    st.skills.any (fun sk => sk.name = name && jobHasSkill st j sk.id) &&
    cutoff ≤ j.posted_date && j.salary.isSome)

/-- `top_skills_week` / `top_skills_month` generalised over the window
length (`analytics.py` lines 66-199): count jobs per skill in the window,
order by count descending (`ORDER BY count DESC` adds no tie-break, so ties
keep group order), truncate to `limit`, then attach each skill's average
truthy-parsed salary over its in-window salary-bearing jobs. -/
def topSkillsWindow (st : Store) (now : Int) (days : Nat) (limit : Nat) : List SkillStat :=
  let cutoff := windowCutoff now days
  let counted := (sortDescBy (fun p => p.2) (skillCounts st cutoff)).take limit
  counted.map (fun p =>
    { skill_name := p.1.name, job_count := p.2,
      avg_salary := avgOpt (salariesOf (jobsWithSkillName st cutoff p.1.name)) })

/-- `top_skills_week` (7-day window). -/
def topSkillsWeek (st : Store) (now : Int) (limit : Nat) : List SkillStat :=
  topSkillsWindow st now 7 limit

/-- `top_skills_month` (30-day window). -/
def topSkillsMonth (st : Store) (now : Int) (limit : Nat) : List SkillStat :=
  topSkillsWindow st now 30 limit

/-- A row of `average_salary_per_skill`. -/
structure SalaryRow where
  skill_name : List Char
  avg_salary : ℚ
  job_count : Nat
deriving DecidableEq

/-- The jobs of skill `sk` (all time) whose salary is present. -/
def jobsWithSalaryForSkill (st : Store) (sk : Skill) : List JobPost :=
  st.jobs.filter (fun j => jobHasSkill st j sk.id && j.salary.isSome)

/-- `average_salary_per_skill` (`analytics.py` lines 202-257): for each
skill take its salary-bearing jobs; skip the skill when there are none or
when no salary parses truthily; otherwise report the mean of the truthy
parses and the count of salary-bearing jobs; sort by average descending
(Python's stable sort). -/
def averageSalaryPerSkill (st : Store) : List SalaryRow :=
  let rows := st.skills.filterMap (fun sk =>
    let jobs := jobsWithSalaryForSkill st sk
    if jobs = [] then none
    else
      let sal := salariesOf jobs
      if sal = [] then none
      else some { skill_name := sk.name, avg_salary := sal.sum / sal.length,
                  job_count := jobs.length })
  sortDescBy (fun r => r.avg_salary) rows

/-- The result record of `get_skill_info`. -/
structure SkillInfo where
  skill_name : List Char
  total_jobs : Nat
  avg_salary : Option ℚ
  jobs_last_7_days : Nat
  jobs_last_30_days : Nat
deriving DecidableEq

/-- All jobs joined to skill `sk`. -/
def jobsForSkill (st : Store) (sk : Skill) : List JobPost :=
  st.jobs.filter (fun j => jobHasSkill st j sk.id)

/-- The jobs posted at or after `cutoff` (`j.posted_date >= cutoff`). -/
def jobsSince (cutoff : Int) (jobs : List JobPost) : List JobPost :=
  jobs.filter (fun j => cutoff ≤ j.posted_date)

/-- `get_skill_info` (`analytics.py` lines 275-335): find the first skill
whose lowercased name equals the lowercased query; report its total job
count, 7- and 30-day windowed counts, and the average truthy parse over the
jobs whose salary string is truthy (present and non-empty). -/
def getSkillInfo (st : Store) (now : Int) (name : List Char) : Option SkillInfo :=
  match st.skills.find? (fun sk => lowerStr sk.name = lowerStr name) with
  | none => none
  | some sk =>
    let allJobs := jobsForSkill st sk
    let jobs7 := jobsSince (windowCutoff now 7) allJobs
    let jobs30 := jobsSince (windowCutoff now 30) allJobs
    let withSal := allJobs.filter (fun j => j.salary.getD [] ≠ [])
    some { skill_name := sk.name, total_jobs := allJobs.length,
           avg_salary := avgOpt (salariesOf withSal),
           jobs_last_7_days := jobs7.length, jobs_last_30_days := jobs30.length }

/-- `get_or_create_skill` (`collector.py` lines 27-44) acting on the list of
stored skill names: an exact-equality lookup (`Skill.name == skill_name`
under SQLite's default BINARY collation), appending a new row only when no
row carries exactly this name. -/
def getOrCreateSkill (store : List (List Char)) (name : List Char) : List (List Char) :=
  if store.contains name then store else store ++ [name]

/-- A sequence of `get_or_create_skill` calls starting from an empty store. -/
def runGetOrCreate (calls : List (List Char)) : List (List Char) :=
  calls.foldl getOrCreateSkill []

/-- A two-skill store with one job for each skill, both in every window:
the skill named "Zebra" was stored first. -/
def tieStore : Store :=
  ⟨[⟨1, "Zebra".toList⟩, ⟨2, "Apple".toList⟩],
   [⟨1, none, 100⟩, ⟨2, none, 100⟩],
   [(1, 1), (2, 2)]⟩

/-- A one-skill store whose only job carries the salary string "0". -/
def zeroStore : Store :=
  ⟨[⟨1, "Python".toList⟩], [⟨1, some "0".toList, 0⟩], [(1, 1)]⟩

/-- A one-skill store whose only job carries the salary string "100k". -/
def oneJobStore : Store :=
  ⟨[⟨1, "Python".toList⟩], [⟨1, some "100k".toList, 0⟩], [(1, 1)]⟩

/-! ### Helper lemmas about the salary scanner -/

theorem takeDigitsUpTo_fst_digits (n : Nat) (s : List Char) :
    ∀ c ∈ (takeDigitsUpTo n s).1, c.isDigit = true := by
  induction n generalizing s with
  | zero => simp [takeDigitsUpTo]
  | succ n ih =>
    match s with
    | [] => simp [takeDigitsUpTo]
    | c :: rest =>
      by_cases h : c.isDigit
      · simp only [takeDigitsUpTo, h, if_pos]
        intro x hx
        rcases List.mem_cons.mp hx with rfl | hx
        · exact h
        · exact ih rest x hx
      · simp [takeDigitsUpTo, h]

theorem takeDigitsUpTo_fst_length (n : Nat) (s : List Char) :
    (takeDigitsUpTo n s).1.length ≤ n := by
  induction n generalizing s with
  | zero => simp [takeDigitsUpTo]
  | succ n ih =>
    match s with
    | [] => simp [takeDigitsUpTo]
    | c :: rest =>
      by_cases h : c.isDigit
      · simp only [takeDigitsUpTo, h, if_pos, List.length_cons]
        exact Nat.succ_le_succ (ih rest)
      · simp [takeDigitsUpTo, h]

theorem commaGroups_fst_ok (s : List Char) :
    groupsOK (commaGroups s).1 = true ∧
      ((commaGroups s).1 = [] ∨ ∃ u, (commaGroups s).1 = ',' :: u) := by
  induction s using commaGroups.induct with
  | case1 a b c rest htriple ih =>
    rw [Bool.and_eq_true, Bool.and_eq_true] at htriple
    obtain ⟨⟨ha, hb⟩, hc⟩ := htriple
    simp only [commaGroups, ha, hb, hc, Bool.and_self, Bool.and_true, Bool.true_and, if_pos]
    refine ⟨?_, Or.inr ⟨_, rfl⟩⟩
    simp [groupsOK, ha, hb, hc, ih.1]
  | case2 a b c rest htriple =>
    simp [commaGroups, htriple, groupsOK]
  | case3 s hs =>
    rw [commaGroups]
    · simp [groupsOK]
    · exact hs

theorem takeWhile_append_of (p : Char → Bool) (xs ys : List Char)
    (hx : ∀ x ∈ xs, p x = true) (hy : ∀ y ∈ ys.head?, p y = false) :
    (xs ++ ys).takeWhile p = xs ∧ (xs ++ ys).dropWhile p = ys := by
  induction xs with
  | nil =>
    simp only [List.nil_append]
    match ys with
    | [] => simp
    | y :: t =>
      have : p y = false := hy y (by simp)
      simp [List.takeWhile_cons, List.dropWhile_cons, this]
  | cons x xs ih =>
    have hpx : p x = true := hx x (by simp)
    have := ih (fun a ha => hx a (by simp [ha]))
    simp [List.takeWhile_cons, List.dropWhile_cons, hpx, this.1, this.2]

theorem salaryScanGo_shape (fuel : Nat) (s : List Char) :
    ∀ t ∈ salaryScanGo fuel s, tokenShapeOK t.1 := by
  induction fuel generalizing s with
  | zero => simp [salaryScanGo]
  | succ fuel ih =>
    match s with
    | [] => simp [salaryScanGo]
    | c :: rest =>
      by_cases hc : c.isDigit
      · have hshape : tokenShapeOK ((c :: (takeDigitsUpTo 2 rest).1) ++ (commaGroups (takeDigitsUpTo 2 rest).2).1) := by
          have hall : ∀ x ∈ c :: (takeDigitsUpTo 2 rest).1, Char.isDigit x = true := by
            intro x hx
            rcases List.mem_cons.mp hx with rfl | hx
            · exact hc
            · exact takeDigitsUpTo_fst_digits 2 rest x hx
          have hcg := commaGroups_fst_ok (takeDigitsUpTo 2 rest).2
          have hhead : ∀ y ∈ (commaGroups (takeDigitsUpTo 2 rest).2).1.head?, Char.isDigit y = false := by
            intro y hy
            rcases hcg.2 with hnil | ⟨u, hu⟩
            · simp [hnil] at hy
            · rw [hu] at hy
              simp only [List.head?_cons, Option.mem_def, Option.some.injEq] at hy
              subst hy
              decide
          have htw := takeWhile_append_of Char.isDigit _ _ hall hhead
          refine ⟨?_, ?_, ?_⟩
          · rw [htw.1]; simp
          · rw [htw.1]
            simp only [List.length_cons]
            have := takeDigitsUpTo_fst_length 2 rest
            omega
          · rw [htw.2]; exact hcg.1
        intro t ht
        simp only [salaryScanGo, hc, if_pos] at ht
        rcases hmatch : skipSpaces (commaGroups (takeDigitsUpTo 2 rest).2).2 with _ | ⟨k, s4⟩
        · rw [hmatch] at ht
          simp only [List.mem_singleton] at ht
          subst ht
          exact hshape
        · rw [hmatch] at ht
          by_cases hk : k = 'k' ∨ k = 'K'
          · simp only [hk, if_pos] at ht
            rcases List.mem_cons.mp ht with rfl | ht
            · exact hshape
            · exact ih s4 _ ht
          · simp only [hk, if_neg, not_false_iff] at ht
            rcases List.mem_cons.mp ht with rfl | ht
            · exact hshape
            · exact ih (k :: s4) _ ht
      · intro t ht
        simp only [salaryScanGo, hc, if_neg, not_false_iff, Bool.false_eq_true] at ht
        exact ih rest t ht

theorem preprocessSalary_nil : preprocessSalary [] = [] := by decide

theorem parseSalary_none_of_scan {s : List Char}
    (h : salaryScan (preprocessSalary s) = []) : parseSalary s = none := by
  by_cases hs : s = []
  · simp [parseSalary, hs]
  · simp [parseSalary, hs, h]

theorem parseSalary_of_scan_eq {s : List Char} {ts : List (List Char × Bool)}
    (h : salaryScan (preprocessSalary s) = ts) (h2 : ts ≠ []) :
    parseSalary s = some ((ts.map tokenValue).sum / (ts.map tokenValue).length) := by
  have hs : s ≠ [] := by
    rintro rfl
    rw [preprocessSalary_nil] at h
    apply h2
    rw [← h]
    decide
  have hm : ts.map tokenValue ≠ [] := by
    simpa using h2
  simp [parseSalary, hs, h, h2, hm]

theorem tokenValue_num (ds : List Char) (b : Bool) (n : Nat)
    (h : digitsToNat (ds.filter (fun c => c ≠ ',')) = n) :
    tokenValue (ds, b) = (n : ℚ) * (if b then 1000 else 1) := by
  show (digitsToNat (ds.filter (fun c => c ≠ ',')) : ℚ) * (if b then 1000 else 1) = _
  rw [h]

theorem specSalaryScanGo_nil (fuel : Nat) : specSalaryScanGo fuel [] = [] := by
  match fuel with
  | 0 => rfl
  | _ + 1 => rfl

theorem specParseSalary_of_scan_eq {s : List Char} {ts : List (List Char × Bool)}
    (h : specSalaryScanGo ((preprocessSalary s).length + 1) (preprocessSalary s) = ts)
    (h2 : ts ≠ []) :
    specParseSalary s = some ((ts.map tokenValue).sum / (ts.map tokenValue).length) := by
  have hs : s ≠ [] := by
    rintro rfl
    rw [preprocessSalary_nil, specSalaryScanGo_nil] at h
    exact h2 h.symm
  have hm : ts.map tokenValue ≠ [] := by
    simpa using h2
  simp [specParseSalary, hs, h, h2, hm]

/-! ### C1 and C2: `parse_salary` -/

/-- C1: for each of the six pairs ("55,000 - 70,000", 62500),
("1,400 USD", 1400), ("50k-80k", 65000), ("100k", 100000),
("20,000 – 40,000", 30000) and ("80,000 – 120,000", 100000), `parse_salary`
returns a numeric value within absolute tolerance 1 of the expected value. -/
theorem parse_salary_edge_cases :
    (∃ v, parseSalary "55,000 - 70,000".toList = some v ∧ |v - 62500| ≤ 1) ∧
    (∃ v, parseSalary "1,400 USD".toList = some v ∧ |v - 1400| ≤ 1) ∧
    (∃ v, parseSalary "50k-80k".toList = some v ∧ |v - 65000| ≤ 1) ∧
    (∃ v, parseSalary "100k".toList = some v ∧ |v - 100000| ≤ 1) ∧
    (∃ v, parseSalary "20,000 – 40,000".toList = some v ∧ |v - 30000| ≤ 1) ∧
    (∃ v, parseSalary "80,000 – 120,000".toList = some v ∧ |v - 100000| ≤ 1) := by
  have h1 : parseSalary "55,000 - 70,000".toList = some 62500 := by
    rw [parseSalary_of_scan_eq
        (by decide : salaryScan (preprocessSalary "55,000 - 70,000".toList) =
          [("55,000".toList, false), ("70,000".toList, false)]) (by decide),
      List.map_cons, List.map_cons, List.map_nil,
      tokenValue_num "55,000".toList false 55000 (by decide),
      tokenValue_num "70,000".toList false 70000 (by decide)]
    norm_num
  have h2 : parseSalary "1,400 USD".toList = some 1400 := by
    rw [parseSalary_of_scan_eq
        (by decide : salaryScan (preprocessSalary "1,400 USD".toList) =
          [("1,400".toList, false)]) (by decide),
      List.map_cons, List.map_nil, tokenValue_num "1,400".toList false 1400 (by decide)]
    norm_num
  have h3 : parseSalary "50k-80k".toList = some 65000 := by
    rw [parseSalary_of_scan_eq
        (by decide : salaryScan (preprocessSalary "50k-80k".toList) =
          [("50".toList, true), ("80".toList, true)]) (by decide),
      List.map_cons, List.map_cons, List.map_nil,
      tokenValue_num "50".toList true 50 (by decide),
      tokenValue_num "80".toList true 80 (by decide)]
    norm_num
  have h4 : parseSalary "100k".toList = some 100000 := by
    rw [parseSalary_of_scan_eq
        (by decide : salaryScan (preprocessSalary "100k".toList) =
          [("100".toList, true)]) (by decide),
      List.map_cons, List.map_nil, tokenValue_num "100".toList true 100 (by decide)]
    norm_num
  have h5 : parseSalary "20,000 – 40,000".toList = some 30000 := by
    rw [parseSalary_of_scan_eq
        (by decide : salaryScan (preprocessSalary "20,000 – 40,000".toList) =
          [("20,000".toList, false), ("40,000".toList, false)]) (by decide),
      List.map_cons, List.map_cons, List.map_nil,
      tokenValue_num "20,000".toList false 20000 (by decide),
      tokenValue_num "40,000".toList false 40000 (by decide)]
    norm_num
  have h6 : parseSalary "80,000 – 120,000".toList = some 100000 := by
    rw [parseSalary_of_scan_eq
        (by decide : salaryScan (preprocessSalary "80,000 – 120,000".toList) =
          [("80,000".toList, false), ("120,000".toList, false)]) (by decide),
      List.map_cons, List.map_cons, List.map_nil,
      tokenValue_num "80,000".toList false 80000 (by decide),
      tokenValue_num "120,000".toList false 120000 (by decide)]
    norm_num
  exact ⟨⟨62500, h1, by norm_num⟩, ⟨1400, h2, by norm_num⟩, ⟨65000, h3, by norm_num⟩,
    ⟨100000, h4, by norm_num⟩, ⟨30000, h5, by norm_num⟩, ⟨100000, h6, by norm_num⟩⟩

/-- C2 counterexample: the source's token pattern bounds the leading digit
group to three digits (`\d{1,3}`), not the unbounded `digits` of the claim:
on "1400" the code finds the two tokens "140" and "0" and returns their mean
70, while a scan for `digits(,digits)*` tokens would find the single token
"1400" and return 1400. -/
theorem parse_salary_digit_group_counterexample :
    parseSalary "1400".toList = some 70 ∧ specParseSalary "1400".toList = some 1400 ∧
      parseSalary "1400".toList ≠ specParseSalary "1400".toList := by
  have hc : parseSalary "1400".toList = some 70 := by
    rw [parseSalary_of_scan_eq
        (by decide : salaryScan (preprocessSalary "1400".toList) =
          [("140".toList, false), ("0".toList, false)]) (by decide),
      List.map_cons, List.map_cons, List.map_nil,
      tokenValue_num "140".toList false 140 (by decide),
      tokenValue_num "0".toList false 0 (by decide)]
    norm_num
  have hspec : specParseSalary "1400".toList = some 1400 := by
    rw [specParseSalary_of_scan_eq
        (by decide : specSalaryScanGo ((preprocessSalary "1400".toList).length + 1)
          (preprocessSalary "1400".toList) = [("1400".toList, false)]) (by decide),
      List.map_cons, List.map_nil, tokenValue_num "1400".toList false 1400 (by decide)]
    norm_num
  refine ⟨hc, hspec, ?_⟩
  rw [hc, hspec]
  intro hEq
  have : (70 : ℚ) = 1400 := Option.some.inj hEq
  norm_num at this

/-- C2 (amended): `parse_salary` scans for numeric tokens whose leading digit
group has one to THREE digits (`\d{1,3}`, not unbounded `digits`) followed by
comma groups of exactly three digits, with an optional case-insensitive `k`
suffix (counting as the value times 1000, separators removed — `tokenValue`);
zero tokens give an absent result, exactly one token gives that token's
value, and two or more tokens give the arithmetic mean of all found tokens,
including tokens beyond the first two. -/
theorem parse_salary_token_rule (s : List Char) :
    (∀ t ∈ salaryScan (preprocessSalary s), tokenShapeOK t.1) ∧
    (salaryScan (preprocessSalary s) = [] → parseSalary s = none) ∧
    (∀ t, salaryScan (preprocessSalary s) = [t] → parseSalary s = some (tokenValue t)) ∧
    (∀ ts, salaryScan (preprocessSalary s) = ts → 2 ≤ ts.length →
      parseSalary s = some ((ts.map tokenValue).sum / (ts.map tokenValue).length)) := by
  refine ⟨fun t ht => salaryScanGo_shape _ _ t ht, parseSalary_none_of_scan, ?_, ?_⟩
  · intro t ht
    rw [parseSalary_of_scan_eq ht (by simp)]
    simp
  · intro ts hts hlen
    refine parseSalary_of_scan_eq hts ?_
    rintro rfl
    simp at hlen

/-- Witness for C2: the amended rule applied at "50k-80k", whose scan finds
the two tokens 50k and 80k and averages them to 65000. -/
theorem parse_salary_token_rule_witness :
    parseSalary "50k-80k".toList = some 65000 := by
  have h := (parse_salary_token_rule "50k-80k".toList).2.2.2
      [("50".toList, true), ("80".toList, true)] (by decide) (by decide)
  rw [h, List.map_cons, List.map_cons, List.map_nil,
    tokenValue_num "50".toList true 50 (by decide),
    tokenValue_num "80".toList true 80 (by decide)]
  norm_num

/-! ### C4 and C9: the Skill Matcher -/

theorem techSkills_head_word :
    ∀ v ∈ techSkills, upperStr v ≠ [] ∧ ∀ c ∈ (upperStr v).head?, isWordChar c = true := by
  decide

theorem wordAt_of_prefix {lit text : List Char} {i : Nat} {t : List Char}
    (ht : lit ++ t = text.drop i) (hne : lit ≠ []) :
    ∀ c ∈ lit.head?, wordAt text i = isWordChar c := by
  intro c hc
  have hlen : 0 < lit.length := List.length_pos.mpr hne
  have hget : text[i]? = lit[0]? := by
    rw [show text[i]? = text[i + 0]? by rw [Nat.add_zero], ← List.getElem?_drop, ← ht,
      List.getElem?_append_left hlen]
  rw [List.head?_eq_getElem?] at hc
  rw [wordAt, hget, hc]

theorem prevWordAt_after_of_prefix {lit text : List Char} {i : Nat} {t : List Char}
    (ht : lit ++ t = text.drop i) (hne : lit ≠ []) :
    ∀ c ∈ lit.getLast?, prevWordAt text (i + lit.length) = isWordChar c := by
  intro c hc
  have hlen : 0 < lit.length := List.length_pos.mpr hne
  have hstep : i + lit.length = (i + (lit.length - 1)) + 1 := by omega
  have hget : text[i + (lit.length - 1)]? = lit[lit.length - 1]? := by
    rw [← List.getElem?_drop, ← ht, List.getElem?_append_left (by omega)]
  rw [List.getLast?_eq_getElem?] at hc
  rw [hstep, prevWordAt, wordAt, hget, hc]

/-- C4 (amended): the whole-word iff holds for every vocabulary entry whose
(uppercased) last character is a word character; the two entries ending in a
non-word character, "C++" and "C#", are found by the code only when a word
character immediately follows, so for them a whole-word occurrence such as
"C++" before a space or the end of the text is missed.  The spec's example
text matches Python, React and Django, and a short entry such as "Go" does
not match inside "Golang". -/
theorem extract_skills_whole_word :
    (∀ text v, v ∈ techSkills → (∀ c ∈ (upperStr v).getLast?, isWordChar c = true) →
      (v ∈ extractSkills text ↔ specWholeWordOccurs v text = true)) ∧
    "Python".toList ∈ extractSkills exampleJobText ∧
    "React".toList ∈ extractSkills exampleJobText ∧
    "Django".toList ∈ extractSkills exampleJobText ∧
    "Go".toList ∉ extractSkills "Golang".toList ∧
    "R".toList ∉ extractSkills "Golang".toList := by
  refine ⟨?_, List.mem_filter.mpr ⟨by decide, by decide⟩,
    List.mem_filter.mpr ⟨by decide, by decide⟩,
    List.mem_filter.mpr ⟨by decide, by decide⟩,
    fun hm => absurd (List.mem_filter.mp hm).2 (by decide),
    fun hm => absurd (List.mem_filter.mp hm).2 (by decide)⟩
  intro text v hv hlast
  obtain ⟨hvne, hhead⟩ := techSkills_head_word v hv
  have hbools : searchWordPattern (upperStr v) (upperStr text) = specWholeWordOccurs v text := by
    simp only [searchWordPattern, specWholeWordOccurs]
    congr 1
    funext i
    by_cases hp : (upperStr v).isPrefixOf ((upperStr text).drop i) = true
    · obtain ⟨t, ht⟩ := List.isPrefixOf_iff_prefix.mp hp
      obtain ⟨c0, hc0⟩ : ∃ c, (upperStr v).head? = some c := by
        cases hu : upperStr v with
        | nil => exact absurd hu hvne
        | cons a l => exact ⟨a, by simp [hu]⟩
      obtain ⟨c1, hc1⟩ : ∃ c, (upperStr v).getLast? = some c :=
        Option.isSome_iff_exists.mp (List.getLast?_isSome.mpr hvne)
      have hw0 := wordAt_of_prefix ht hvne c0 (by rw [hc0]; rfl)
      have hw1 := prevWordAt_after_of_prefix ht hvne c1 (by rw [hc1]; rfl)
      have hb0 : boundaryAt (upperStr text) i = !(prevWordAt (upperStr text) i) := by
        rw [boundaryAt, hw0, hhead c0 (by rw [hc0]; rfl)]
        cases prevWordAt (upperStr text) i <;> rfl
      have hb1 : boundaryAt (upperStr text) (i + (upperStr v).length) =
          !(wordAt (upperStr text) (i + (upperStr v).length)) := by
        rw [boundaryAt, hw1, hlast c1 (by rw [hc1]; rfl)]
        cases wordAt (upperStr text) (i + (upperStr v).length) <;> rfl
      rw [hb0, hb1, hp]
      cases prevWordAt (upperStr text) i <;>
        cases wordAt (upperStr text) (i + (upperStr v).length) <;> simp
    · have hp' : (upperStr v).isPrefixOf ((upperStr text).drop i) = false :=
        Bool.eq_false_iff.mpr hp
      simp [hp']
  rw [extractSkills, List.mem_filter, hbools]
  simp [hv]

/-- Witness for C4: the amended iff applied at concrete inputs — "Python"
matches in the example text and "Go" does not match inside "Golang". -/
theorem extract_skills_whole_word_witness :
    "Python".toList ∈ extractSkills exampleJobText ∧
    "Go".toList ∉ extractSkills "Golang experience".toList := by
  have h1 := extract_skills_whole_word.1 exampleJobText "Python".toList (by decide) (by decide)
  have h2 := extract_skills_whole_word.1 "Golang experience".toList "Go".toList
    (by decide) (by decide)
  exact ⟨h1.mpr (by decide), fun hm => absurd (h2.mp hm) (by decide)⟩

/-- C4 counterexample: "C++" occurs as a whole word in "my C++ skills", but
the code's trailing `\b` cannot match after '+' unless a word character
follows, so `extract_skills` misses it — the claimed iff fails. -/
theorem extract_skills_cpp_counterexample :
    "C++".toList ∈ techSkills ∧
    specWholeWordOccurs "C++".toList "my C++ skills".toList = true ∧
    "C++".toList ∉ extractSkills "my C++ skills".toList := by
  refine ⟨by decide, by decide, fun hm => ?_⟩
  exact absurd (List.mem_filter.mp hm).2 (by decide)

/-- C9: every element of `extract_skills`' result is an entry of the fixed
vocabulary `TECH_SKILLS` in its original canonical casing. -/
theorem extract_skills_subset_vocab (text v : List Char)
    (h : v ∈ extractSkills text) : v ∈ techSkills :=
  (List.mem_filter.mp h).1

/-- Witness for C9: applied to "Python" found in the example text. -/
theorem extract_skills_subset_vocab_witness :
    "Python".toList ∈ extractSkills exampleJobText ∧ "Python".toList ∈ techSkills := by
  have hm : "Python".toList ∈ extractSkills exampleJobText :=
    List.mem_filter.mpr ⟨by decide, by decide⟩
  exact ⟨hm, extract_skills_subset_vocab _ _ hm⟩

/-! ### C5: the Salary Locator -/

theorem stripChars_sub (s : List Char) : stripChars s <:+: s := by
  have h1 : s.dropWhile isPySpace <:+ s := List.dropWhile_suffix isPySpace
  have h2 : (s.dropWhile isPySpace).reverse.dropWhile isPySpace <:+
      (s.dropWhile isPySpace).reverse := List.dropWhile_suffix isPySpace
  have h3 := (@List.reverse_prefix Char ((s.dropWhile isPySpace).reverse.dropWhile isPySpace)
    ((s.dropWhile isPySpace).reverse)).mpr h2
  rw [List.reverse_reverse] at h3
  exact h3.isInfix.trans h1.isInfix

theorem reSearchG0_sub (r : RE) : ∀ s m, reSearchG0 r s = some m → m <:+: s := by
  intro s
  induction s with
  | nil =>
    intro m h
    rw [reSearchG0] at h
    split at h
    · cases h
      exact List.nil_infix
    · cases h
  | cons c rest ih =>
    intro m h
    rw [reSearchG0] at h
    split at h
    · cases h
      exact (List.take_prefix _ _).isInfix
    · exact List.infix_cons (ih m h)

/-- C5 (amended): whenever `extract_salary` returns a value, that value is a
contiguous (whitespace-stripped) substring of the UPPERCASED input text, not
of the original text: the function searches `text.upper()` and returns the
match from it, so any lowercase letters of the original matched region come
back uppercased. -/
theorem extract_salary_returns_upper_substring (text m : List Char)
    (h : extractSalary text = some m) : m <:+: upperStr text := by
  simp only [extractSalary] at h
  split at h
  · rename_i m1 hm1
    cases h
    exact (stripChars_sub m1).trans (reSearchG0_sub _ _ _ hm1)
  · split at h
    · rename_i m2 hm2
      cases h
      exact (stripChars_sub m2).trans (reSearchG0_sub _ _ _ hm2)
    · split at h
      · rename_i m3 hm3
        cases h
        exact (stripChars_sub m3).trans (reSearchG0_sub _ _ _ hm3)
      · split at h
        · rename_i m4 hm4
          cases h
          exact (stripChars_sub m4).trans (reSearchG0_sub _ _ _ hm4)
        · cases h

/-! ### Helper lemmas about the stable descending sort -/

theorem mem_insertDescBy {α β : Type} [LinearOrder β] (key : α → β) (x a : α) :
    ∀ l : List α, a ∈ insertDescBy key x l ↔ a = x ∨ a ∈ l := by
  intro l
  induction l with
  | nil => simp [insertDescBy]
  | cons y ys ih =>
    by_cases h : key y < key x
    · simp [insertDescBy, h]
    · simp only [insertDescBy, h, if_neg, not_false_iff, List.mem_cons, ih]
      tauto

theorem pairwise_insertDescBy {α β : Type} [LinearOrder β] (key : α → β) (x : α) :
    ∀ l : List α, l.Pairwise (fun a b => key b ≤ key a) →
      (insertDescBy key x l).Pairwise (fun a b => key b ≤ key a) := by
  intro l
  induction l with
  | nil => simp [insertDescBy]
  | cons y ys ih =>
    intro h
    rw [List.pairwise_cons] at h
    by_cases hlt : key y < key x
    · simp only [insertDescBy, hlt, if_pos]
      rw [List.pairwise_cons]
      constructor
      · intro b hb
        rcases List.mem_cons.mp hb with rfl | hb
        · exact le_of_lt hlt
        · exact le_trans (h.1 b hb) (le_of_lt hlt)
      · exact List.pairwise_cons.mpr h
    · simp only [insertDescBy, hlt, if_neg, not_false_iff]
      rw [List.pairwise_cons]
      constructor
      · intro b hb
        rcases (mem_insertDescBy key x b ys).mp hb with rfl | hb
        · exact le_of_not_lt hlt
        · exact h.1 b hb
      · exact ih h.2

theorem pairwise_sortDescBy {α β : Type} [LinearOrder β] (key : α → β) (l : List α) :
    (sortDescBy key l).Pairwise (fun a b => key b ≤ key a) := by
  suffices h : ∀ acc : List α, acc.Pairwise (fun a b => key b ≤ key a) →
      (l.foldl (fun acc x => insertDescBy key x acc) acc).Pairwise
        (fun a b => key b ≤ key a) from h [] (by simp)
  induction l with
  | nil =>
    intro acc h
    simpa using h
  | cons x xs ih =>
    intro acc h
    rw [List.foldl_cons]
    exact ih _ (pairwise_insertDescBy key x acc h)

theorem mem_sortDescBy {α β : Type} [LinearOrder β] (key : α → β) (l : List α) (a : α) :
    a ∈ sortDescBy key l ↔ a ∈ l := by
  suffices h : ∀ acc : List α,
      (a ∈ l.foldl (fun acc x => insertDescBy key x acc) acc ↔ a ∈ acc ∨ a ∈ l) by
    simpa using h []
  induction l with
  | nil => intro acc; simp
  | cons x xs ih =>
    intro acc
    rw [List.foldl_cons, ih, mem_insertDescBy]
    simp only [List.mem_cons]
    tauto

/-! ### C3: ordering and truncation of `top_skills` -/

theorem topSkillsWindow_sorted_le_limit (st : Store) (now : Int) (days limit : Nat) :
    (topSkillsWindow st now days limit).length ≤ limit ∧
    (topSkillsWindow st now days limit).Pairwise (fun a b => b.job_count ≤ a.job_count) := by
  constructor
  · simp only [topSkillsWindow, List.length_map]
    exact List.length_take_le ..
  · simp only [topSkillsWindow]
    apply List.pairwise_map.mpr
    exact List.Pairwise.sublist (List.take_sublist ..)
      (pairwise_sortDescBy (fun p => p.2) (skillCounts st (windowCutoff now days)))

/-- C3 (amended): `top_skills_week` and `top_skills_month` return at most
`limit` entries, sorted by `job_count` descending; equal counts keep the
store (group key) order — the query adds no skill-name tie-break. -/
theorem top_skills_sorted_and_limited (st : Store) (now : Int) (limit : Nat) :
    ((topSkillsWeek st now limit).length ≤ limit ∧
      (topSkillsWeek st now limit).Pairwise (fun a b => b.job_count ≤ a.job_count)) ∧
    ((topSkillsMonth st now limit).length ≤ limit ∧
      (topSkillsMonth st now limit).Pairwise (fun a b => b.job_count ≤ a.job_count)) :=
  ⟨topSkillsWindow_sorted_le_limit st now 7 limit,
   topSkillsWindow_sorted_le_limit st now 30 limit⟩

/-- C3 counterexample: in `tieStore` both skills have one job in the window,
and the result keeps the store order ["Zebra", "Apple"], although "Apple"
precedes "Zebra" in ascending name order — the claimed name tie-break does
not exist in the code. -/
theorem top_skills_tie_order_counterexample :
    (topSkillsWeek tieStore 100 10).map (fun r => r.skill_name) =
      ["Zebra".toList, "Apple".toList] ∧
    (topSkillsWeek tieStore 100 10).map (fun r => r.job_count) = [1, 1] ∧
    List.Lex (· < ·) "Apple".toList "Zebra".toList :=
  ⟨by decide, by decide, by decide⟩

/-! ### C7: `get_or_create_skill` -/

/-- C7 counterexample: after the calls "Python" then "python" the store
holds both spellings — the lookup `Skill.name == skill_name` is exact, not
case-insensitive, so two case-insensitively equal names coexist. -/
theorem get_or_create_case_counterexample :
    runGetOrCreate ["Python".toList, "python".toList] =
      ["Python".toList, "python".toList] ∧
    lowerStr "Python".toList = lowerStr "python".toList ∧
    "Python".toList ≠ "python".toList :=
  ⟨by decide, by decide, by decide⟩

/-- C7 (amended): the lookup is an exact, case-sensitive comparison; the
store never contains two skills with exactly equal names, and a call never
rewrites the stored rows — it at most appends one, so the first-seen row
(and its casing) is preserved.  Differently-cased spellings of one name
create distinct rows. -/
theorem get_or_create_exact_invariant :
    (∀ calls, (runGetOrCreate calls).Nodup) ∧
    (∀ calls name, runGetOrCreate calls <+: runGetOrCreate (calls ++ [name])) := by
  have key : ∀ (calls : List (List Char)) (store : List (List Char)), store.Nodup →
      (calls.foldl getOrCreateSkill store).Nodup := by
    intro calls
    induction calls with
    | nil =>
      intro store h
      simpa using h
    | cons c cs ih =>
      intro store h
      rw [List.foldl_cons]
      apply ih
      simp only [getOrCreateSkill]
      by_cases hc : store.contains c
      · have hcm : c ∈ store := by simpa using hc
        simp [hcm, h]
      · have hnm : c ∉ store := by simpa using hc
        simp [hnm, List.nodup_append, h]
  constructor
  · intro calls
    exact key calls [] (by simp)
  · intro calls name
    rw [runGetOrCreate, runGetOrCreate, List.foldl_append, List.foldl_cons, List.foldl_nil]
    simp only [getOrCreateSkill]
    by_cases hc : name ∈ List.foldl getOrCreateSkill [] calls
    · simp [hc]
    · have hcb : ¬((List.foldl getOrCreateSkill [] calls).contains name = true) := by
        simpa using hc
      rw [if_neg hcb]
      exact List.prefix_append ..

/-! ### C8: the window boundary is inclusive -/

/-- C8: a record posted exactly at `now - window_days` satisfies the
inclusive `posted_date >= cutoff` comparison, so it lies in the filtered job
list every windowed query counts — `jobsInWindowWithSkill` is the row set
behind the `top_skills_*` counts, `jobsSince ∘ jobsForSkill` the one behind
`get_skill_info`'s 7- and 30-day counts — and its skill appears in the
grouped counts with a count of at least one. -/
theorem window_boundary_inclusive (st : Store) (now : Int) (days : Nat)
    (j : JobPost) (sk : Skill) (hj : j ∈ st.jobs) (hsk : sk ∈ st.skills)
    (ha : (j.id, sk.id) ∈ st.assoc)
    (hb : j.posted_date = windowCutoff now days) :
    j ∈ jobsInWindowWithSkill st (windowCutoff now days) sk ∧
    j ∈ jobsSince (windowCutoff now days) (jobsForSkill st sk) ∧
    ∃ n, (sk, n) ∈ skillCounts st (windowCutoff now days) ∧ 1 ≤ n := by
  have hhas : jobHasSkill st j sk.id = true := by
    simp only [jobHasSkill]
    simpa using ha
  have h1 : j ∈ jobsInWindowWithSkill st (windowCutoff now days) sk := by
    simp [jobsInWindowWithSkill, hj, hhas, hb]
  have hne : (jobsInWindowWithSkill st (windowCutoff now days) sk).length ≠ 0 := by
    have := List.length_pos.mpr (List.ne_nil_of_mem h1)
    omega
  refine ⟨h1, ?_, ?_⟩
  · simp [jobsSince, jobsForSkill, hj, hhas, hb]
  · refine ⟨(jobsInWindowWithSkill st (windowCutoff now days) sk).length, ?_, ?_⟩
    · apply List.mem_filterMap.mpr
      refine ⟨sk, hsk, ?_⟩
      simp [skillCounts, hne]
    · exact Nat.one_le_iff_ne_zero.mpr hne

/-- Witness for C8: a one-job store whose job is posted exactly at the 7-day
cutoff for query time 1000; the job is counted. -/
theorem window_boundary_inclusive_witness :
    (⟨1, none, windowCutoff 1000 7⟩ : JobPost) ∈
      jobsInWindowWithSkill
        ⟨[⟨1, "Python".toList⟩], [⟨1, none, windowCutoff 1000 7⟩], [(1, 1)]⟩
        (windowCutoff 1000 7) ⟨1, "Python".toList⟩ :=
  (window_boundary_inclusive
    ⟨[⟨1, "Python".toList⟩], [⟨1, none, windowCutoff 1000 7⟩], [(1, 1)]⟩
    1000 7 ⟨1, none, windowCutoff 1000 7⟩ ⟨1, "Python".toList⟩
    (by decide) (by decide) (by decide) rfl).1

/-! ### Concrete parses used by the aggregation claims -/

theorem parseSalary_ne_nil {s : List Char} {v : ℚ} (h : parseSalary s = some v) :
    s ≠ [] := by
  rintro rfl
  simp [parseSalary] at h

theorem parseSalary_zero : parseSalary "0".toList = some 0 := by
  rw [parseSalary_of_scan_eq
      (by decide : salaryScan (preprocessSalary "0".toList) = [("0".toList, false)])
      (by decide),
    List.map_cons, List.map_nil, tokenValue_num "0".toList false 0 (by decide)]
  norm_num

theorem parseSalary_100k : parseSalary "100k".toList = some 100000 := by
  rw [parseSalary_of_scan_eq
      (by decide : salaryScan (preprocessSalary "100k".toList) = [("100".toList, true)])
      (by decide),
    List.map_cons, List.map_nil, tokenValue_num "100".toList true 100 (by decide)]
  norm_num

theorem parseSalary_na : parseSalary "N/A".toList = none :=
  parseSalary_none_of_scan (by decide)

theorem truthyParse_zero : truthyParse "0".toList = none := by
  simp only [truthyParse]
  rw [parseSalary_zero]
  simp

theorem truthyParse_na : truthyParse "N/A".toList = none := by
  simp only [truthyParse]
  rw [parseSalary_na]

/-! ### C6: `average_salary_per_skill` -/

/-- C6 (amended): `average_salary_per_skill` returns exactly the skills that
have at least one record whose salary parses TRUTHILY (to a non-zero value —
a record parsing to 0.0 is dropped by the `if parsed:` truthiness test just
like a failed parse), each with the mean of the truthy parsed values of its
salary-bearing records, and the result is sorted by avg_salary descending. -/
theorem average_salary_rows (st : Store) :
    (∀ r ∈ averageSalaryPerSkill st, ∃ sk, sk ∈ st.skills ∧
        r.skill_name = sk.name ∧
        salariesOf (jobsWithSalaryForSkill st sk) ≠ [] ∧
        r.avg_salary = (salariesOf (jobsWithSalaryForSkill st sk)).sum /
          ((salariesOf (jobsWithSalaryForSkill st sk)).length : ℚ) ∧
        r.job_count = (jobsWithSalaryForSkill st sk).length) ∧
    (∀ sk ∈ st.skills, salariesOf (jobsWithSalaryForSkill st sk) ≠ [] →
      ∃ r, r ∈ averageSalaryPerSkill st ∧ r.skill_name = sk.name) ∧
    (averageSalaryPerSkill st).Pairwise (fun a b => b.avg_salary ≤ a.avg_salary) := by
  refine ⟨?_, ?_, ?_⟩
  · intro r hr
    simp only [averageSalaryPerSkill] at hr
    rw [mem_sortDescBy] at hr
    obtain ⟨sk, hsk, hf⟩ := List.mem_filterMap.mp hr
    by_cases h1 : jobsWithSalaryForSkill st sk = []
    · rw [if_pos h1] at hf
      cases hf
    · rw [if_neg h1] at hf
      by_cases h2 : salariesOf (jobsWithSalaryForSkill st sk) = []
      · rw [if_pos h2] at hf
        cases hf
      · rw [if_neg h2] at hf
        obtain rfl := Option.some.inj hf
        exact ⟨sk, hsk, rfl, h2, rfl, rfl⟩
  · intro sk hsk hne
    have hjne : jobsWithSalaryForSkill st sk ≠ [] := by
      intro h0
      apply hne
      rw [h0]
      rfl
    refine ⟨⟨sk.name,
        (salariesOf (jobsWithSalaryForSkill st sk)).sum /
          ((salariesOf (jobsWithSalaryForSkill st sk)).length : ℚ),
        (jobsWithSalaryForSkill st sk).length⟩, ?_, rfl⟩
    simp only [averageSalaryPerSkill]
    rw [mem_sortDescBy]
    exact List.mem_filterMap.mpr ⟨sk, hsk, by rw [if_neg hjne, if_neg hne]⟩
  · simp only [averageSalaryPerSkill]
    exact pairwise_sortDescBy ..

/-- C6 counterexample: the salary string "0" is parseable (`parse_salary`
returns 0.0), yet its skill never appears in the result — the truthiness
test drops the zero value, so `zeroStore`'s single skill is excluded even
though it has a record with a parseable salary. -/
theorem average_salary_zero_counterexample :
    parseSalary "0".toList = some 0 ∧ averageSalaryPerSkill zeroStore = [] := by
  refine ⟨parseSalary_zero, ?_⟩
  have h1 : jobsWithSalaryForSkill zeroStore ⟨1, "Python".toList⟩ =
      [⟨1, some "0".toList, 0⟩] := by decide
  have hbind : (⟨1, some "0".toList, 0⟩ : JobPost).salary.bind truthyParse = none :=
    truthyParse_zero
  have hsal : salariesOf (jobsWithSalaryForSkill zeroStore ⟨1, "Python".toList⟩) = [] := by
    rw [h1]
    simp only [salariesOf, List.filterMap_cons, List.filterMap_nil, hbind]
  have hne : jobsWithSalaryForSkill zeroStore ⟨1, "Python".toList⟩ ≠ [] := by
    rw [h1]
    exact List.cons_ne_nil _ _
  have hskills : zeroStore.skills = [⟨1, "Python".toList⟩] := rfl
  simp only [averageSalaryPerSkill, hskills, List.filterMap_cons, List.filterMap_nil]
  rw [if_neg hne, if_pos hsal]
  rfl

/-- Witness for C6: in `oneJobStore` (a single "100k" record) the theorem
produces a "Python" row. -/
theorem average_salary_rows_witness :
    ∃ r, r ∈ averageSalaryPerSkill oneJobStore ∧ r.skill_name = "Python".toList := by
  have h1 : jobsWithSalaryForSkill oneJobStore ⟨1, "Python".toList⟩ =
      [⟨1, some "100k".toList, 0⟩] := by decide
  have htp : truthyParse "100k".toList = some 100000 := by
    simp only [truthyParse]
    rw [parseSalary_100k]
    norm_num
  have hbind : (⟨1, some "100k".toList, 0⟩ : JobPost).salary.bind truthyParse =
      some 100000 := htp
  have h3 : salariesOf (jobsWithSalaryForSkill oneJobStore ⟨1, "Python".toList⟩) ≠ [] := by
    rw [h1]
    simp only [salariesOf, List.filterMap_cons, List.filterMap_nil, hbind]
    simp
  exact (average_salary_rows oneJobStore).2.1 ⟨1, "Python".toList⟩ (by decide) h3

/-! ### C10: a zero-parsing salary behaves like an unparseable one -/

theorem length_filter_mid_eq {j j' : JobPost} (pre post : List JobPost)
    (p : JobPost → Bool) (hp : p j = p j') :
    ((pre ++ j :: post).filter p).length = ((pre ++ j' :: post).filter p).length := by
  rw [List.filter_append, List.filter_append, List.filter_cons, List.filter_cons, hp]
  cases p j' <;> simp

theorem filter_mid_eq_nil_iff {j j' : JobPost} (pre post : List JobPost)
    (p : JobPost → Bool) (hp : p j = p j') :
    ((pre ++ j :: post).filter p = []) ↔ ((pre ++ j' :: post).filter p = []) := by
  rw [← List.length_eq_zero, ← List.length_eq_zero, length_filter_mid_eq pre post p hp]

theorem salariesOf_filter_mid_eq {j j' : JobPost} (pre post : List JobPost)
    (p : JobPost → Bool) (hp : p j = p j')
    (hg : j.salary.bind truthyParse = none)
    (hg' : j'.salary.bind truthyParse = none) :
    salariesOf ((pre ++ j :: post).filter p) =
      salariesOf ((pre ++ j' :: post).filter p) := by
  simp only [salariesOf]
  rw [List.filter_append, List.filter_append, List.filter_cons, List.filter_cons, hp]
  cases p j' <;>
    simp [List.filterMap_append, List.filterMap_cons, hg, hg']

/-- C10: for a record whose salary string parses to 0.0, every aggregation
operation treats it exactly as if the salary had failed to parse: replacing
its salary by any non-empty unparseable string (here any `rep` with
`parseSalary rep = none`) leaves the output of `top_skills_week`,
`top_skills_month` (and the generalised window query),
`average_salary_per_skill` and `get_skill_info` unchanged — the record is in
both cases excluded from the average's numerator and denominator by the
`if parsed:` truthiness test, while still counted everywhere else. -/
theorem zero_salary_like_parse_failure (sks : List Skill) (asc : List (Nat × Nat))
    (pre post : List JobPost) (jid : Nat) (pd : Int) (s rep : List Char)
    (h0 : parseSalary s = some 0) (hrep : parseSalary rep = none) (hrepne : rep ≠ [])
    (now : Int) (days limit : Nat) (qname : List Char) :
    topSkillsWindow ⟨sks, pre ++ ⟨jid, some s, pd⟩ :: post, asc⟩ now days limit =
      topSkillsWindow ⟨sks, pre ++ ⟨jid, some rep, pd⟩ :: post, asc⟩ now days limit ∧
    topSkillsWeek ⟨sks, pre ++ ⟨jid, some s, pd⟩ :: post, asc⟩ now limit =
      topSkillsWeek ⟨sks, pre ++ ⟨jid, some rep, pd⟩ :: post, asc⟩ now limit ∧
    topSkillsMonth ⟨sks, pre ++ ⟨jid, some s, pd⟩ :: post, asc⟩ now limit =
      topSkillsMonth ⟨sks, pre ++ ⟨jid, some rep, pd⟩ :: post, asc⟩ now limit ∧
    averageSalaryPerSkill ⟨sks, pre ++ ⟨jid, some s, pd⟩ :: post, asc⟩ =
      averageSalaryPerSkill ⟨sks, pre ++ ⟨jid, some rep, pd⟩ :: post, asc⟩ ∧
    getSkillInfo ⟨sks, pre ++ ⟨jid, some s, pd⟩ :: post, asc⟩ now qname =
      getSkillInfo ⟨sks, pre ++ ⟨jid, some rep, pd⟩ :: post, asc⟩ now qname := by
  have hsne : s ≠ [] := parseSalary_ne_nil h0
  have hgj : ((⟨jid, some s, pd⟩ : JobPost)).salary.bind truthyParse = none := by
    show truthyParse s = none
    simp only [truthyParse]
    rw [h0]
    simp
  have hgj' : ((⟨jid, some rep, pd⟩ : JobPost)).salary.bind truthyParse = none := by
    show truthyParse rep = none
    simp only [truthyParse]
    rw [hrep]
  -- the window query
  have hA : ∀ days limit, topSkillsWindow ⟨sks, pre ++ ⟨jid, some s, pd⟩ :: post, asc⟩
      now days limit =
      topSkillsWindow ⟨sks, pre ++ ⟨jid, some rep, pd⟩ :: post, asc⟩ now days limit := by
    intro days limit
    have hjw : ∀ sk, (jobsInWindowWithSkill ⟨sks, pre ++ ⟨jid, some s, pd⟩ :: post, asc⟩
        (windowCutoff now days) sk).length =
        (jobsInWindowWithSkill ⟨sks, pre ++ ⟨jid, some rep, pd⟩ :: post, asc⟩
          (windowCutoff now days) sk).length :=
      fun sk => length_filter_mid_eq pre post _ rfl
    have hsc : skillCounts ⟨sks, pre ++ ⟨jid, some s, pd⟩ :: post, asc⟩
        (windowCutoff now days) =
        skillCounts ⟨sks, pre ++ ⟨jid, some rep, pd⟩ :: post, asc⟩
          (windowCutoff now days) := by
      simp only [skillCounts]
      apply List.filterMap_congr
      intro sk _
      simp only [hjw sk]
    have hjwn : ∀ name, salariesOf (jobsWithSkillName
        ⟨sks, pre ++ ⟨jid, some s, pd⟩ :: post, asc⟩ (windowCutoff now days) name) =
        salariesOf (jobsWithSkillName
          ⟨sks, pre ++ ⟨jid, some rep, pd⟩ :: post, asc⟩ (windowCutoff now days) name) :=
      fun name => salariesOf_filter_mid_eq pre post _ rfl hgj hgj'
    simp only [topSkillsWindow]
    rw [hsc]
    apply List.map_congr_left
    intro p _
    rw [hjwn p.1.name]
  -- average_salary_per_skill
  have hD : averageSalaryPerSkill ⟨sks, pre ++ ⟨jid, some s, pd⟩ :: post, asc⟩ =
      averageSalaryPerSkill ⟨sks, pre ++ ⟨jid, some rep, pd⟩ :: post, asc⟩ := by
    simp only [averageSalaryPerSkill]
    congr 1
    apply List.filterMap_congr
    intro sk _
    have hlen : (jobsWithSalaryForSkill ⟨sks, pre ++ ⟨jid, some s, pd⟩ :: post, asc⟩
        sk).length =
        (jobsWithSalaryForSkill ⟨sks, pre ++ ⟨jid, some rep, pd⟩ :: post, asc⟩ sk).length :=
      length_filter_mid_eq pre post _ rfl
    have hsal : salariesOf (jobsWithSalaryForSkill
        ⟨sks, pre ++ ⟨jid, some s, pd⟩ :: post, asc⟩ sk) =
        salariesOf (jobsWithSalaryForSkill
          ⟨sks, pre ++ ⟨jid, some rep, pd⟩ :: post, asc⟩ sk) :=
      salariesOf_filter_mid_eq pre post _ rfl hgj hgj'
    by_cases h1 : jobsWithSalaryForSkill ⟨sks, pre ++ ⟨jid, some s, pd⟩ :: post, asc⟩ sk = []
    · have h1' : jobsWithSalaryForSkill ⟨sks, pre ++ ⟨jid, some rep, pd⟩ :: post, asc⟩ sk = [] := by
        rw [← List.length_eq_zero, ← hlen, List.length_eq_zero]
        exact h1
      rw [if_pos h1, if_pos h1']
    · have h1' : jobsWithSalaryForSkill ⟨sks, pre ++ ⟨jid, some rep, pd⟩ :: post, asc⟩ sk ≠ [] := by
        intro h
        apply h1
        rw [← List.length_eq_zero, hlen, List.length_eq_zero]
        exact h
      rw [if_neg h1, if_neg h1', hsal, hlen]
  -- get_skill_info
  have hE : getSkillInfo ⟨sks, pre ++ ⟨jid, some s, pd⟩ :: post, asc⟩ now qname =
      getSkillInfo ⟨sks, pre ++ ⟨jid, some rep, pd⟩ :: post, asc⟩ now qname := by
    simp only [getSkillInfo]
    cases hf : sks.find? (fun sk => lowerStr sk.name = lowerStr qname) with
    | none => rfl
    | some sk =>
      have htot : (jobsForSkill ⟨sks, pre ++ ⟨jid, some s, pd⟩ :: post, asc⟩ sk).length =
          (jobsForSkill ⟨sks, pre ++ ⟨jid, some rep, pd⟩ :: post, asc⟩ sk).length :=
        length_filter_mid_eq pre post _ rfl
      have h7 : (jobsSince (windowCutoff now 7)
          (jobsForSkill ⟨sks, pre ++ ⟨jid, some s, pd⟩ :: post, asc⟩ sk)).length =
          (jobsSince (windowCutoff now 7)
            (jobsForSkill ⟨sks, pre ++ ⟨jid, some rep, pd⟩ :: post, asc⟩ sk)).length := by
        simp only [jobsSince, jobsForSkill, List.filter_filter]
        exact length_filter_mid_eq pre post _ rfl
      have h30 : (jobsSince (windowCutoff now 30)
          (jobsForSkill ⟨sks, pre ++ ⟨jid, some s, pd⟩ :: post, asc⟩ sk)).length =
          (jobsSince (windowCutoff now 30)
            (jobsForSkill ⟨sks, pre ++ ⟨jid, some rep, pd⟩ :: post, asc⟩ sk)).length := by
        simp only [jobsSince, jobsForSkill, List.filter_filter]
        exact length_filter_mid_eq pre post _ rfl
      have hwsal : salariesOf ((jobsForSkill
          ⟨sks, pre ++ ⟨jid, some s, pd⟩ :: post, asc⟩ sk).filter
            (fun j => j.salary.getD [] ≠ [])) =
          salariesOf ((jobsForSkill
            ⟨sks, pre ++ ⟨jid, some rep, pd⟩ :: post, asc⟩ sk).filter
              (fun j => j.salary.getD [] ≠ [])) := by
        simp only [jobsForSkill, List.filter_filter]
        apply salariesOf_filter_mid_eq pre post _ ?_ hgj hgj'
        simp [hsne, hrepne, jobHasSkill]
      show some _ = some _
      rw [htot, h7, h30, hwsal]
  exact ⟨hA days limit, hA 7 limit, hA 30 limit, hD, hE⟩

/-- Witness for C10: in a one-record store, replacing the salary "0" by the
unparseable "N/A" leaves `average_salary_per_skill` (and the other queries)
unchanged. -/
theorem zero_salary_like_parse_failure_witness :
    averageSalaryPerSkill ⟨[⟨1, "Python".toList⟩],
      [⟨1, some "0".toList, 0⟩], [(1, 1)]⟩ =
    averageSalaryPerSkill ⟨[⟨1, "Python".toList⟩],
      [⟨1, some "N/A".toList, 0⟩], [(1, 1)]⟩ :=
  (zero_salary_like_parse_failure [⟨1, "Python".toList⟩] [(1, 1)] [] [] 1 0
    "0".toList "N/A".toList parseSalary_zero parseSalary_na (by decide)
    0 7 10 "Python".toList).2.2.2.1

/-- C5 counterexample: on "Salary 50k-80k" the located salary is returned
from the uppercased text as "50K-80K", which is not a character-for-character
substring of the original text (which holds "50k-80k"). -/
theorem extract_salary_not_verbatim :
    extractSalary "Salary 50k-80k".toList = some "50K-80K".toList ∧
    ¬ ("50K-80K".toList <:+: "Salary 50k-80k".toList) := by
  exact ⟨by decide, by decide⟩

/-- Witness for C5: on "100 USD" (already uppercase) the matched substring
comes back unchanged and is indeed a substring of the uppercased text. -/
theorem extract_salary_upper_substring_witness :
    extractSalary "100 USD".toList = some "100 USD".toList ∧
    "100 USD".toList <:+: upperStr "100 USD".toList := by
  have h : extractSalary "100 USD".toList = some "100 USD".toList := by decide
  exact ⟨h, extract_salary_returns_upper_substring _ _ h⟩

/-- Witness for C3: the ordering property evaluated on `tieStore`. -/
theorem top_skills_sorted_and_limited_witness :
    (topSkillsWeek tieStore 100 10).length ≤ 10 :=
  (top_skills_sorted_and_limited tieStore 100 10).1.1

/-- Witness for C7: the exact-uniqueness invariant evaluated on a concrete
call sequence with a repeated and a re-cased name. -/
theorem get_or_create_exact_invariant_witness :
    (runGetOrCreate ["Python".toList, "python".toList, "Python".toList]).Nodup :=
  get_or_create_exact_invariant.1 ["Python".toList, "python".toList, "Python".toList]

end SkillPulse
